import Mathlib

/-!
Verification of the Rollback risk-estimator core (src/app/risk_engine.py,
src/app/storage.py, src/app/main.py) against its natural-language design
specification.

The Python source is shallowly embedded below.  Machine floats are modelled
as exact rationals; Python `round(x, 2)` is modelled as exact round-half-even
at two decimal places.  The numpy random generator is external to this
repository, so its draws are abstracted as oracle functions, constrained by
the ranges the source requests (`Draws.Admissible`).  The networkx
betweenness-centrality call is likewise external and is modelled as a
parameter, constrained to the spec's contract (a normalised per-node value).
-/

namespace Rollback

/-- Round-half-even of a rational to an integer, the tie-breaking rule used by
Python's `round`. -/
def roundHalfEven (q : ℚ) : ℤ :=
  let n := ⌊q⌋
  let r := q - n
  if r < 1/2 then n
  else if 1/2 < r then n + 1
  else if n % 2 = 0 then n else n + 1

/-- Python `round(x, 2)`: round to two decimal places, ties to even. -/
def round2 (q : ℚ) : ℚ := (roundHalfEven (q * 100) : ℚ) / 100

/-- `DeploymentDecision` from src/app/models.py. -/
inductive DeploymentDecision
  | autoApprove
  | manualReview
  | blockDeployment
  deriving DecidableEq, Repr

/-- `ServiceMetrics` from src/app/models.py (floats as rationals). -/
structure ServiceMetrics where
  service_name : String
  dependency_impact_score : ℚ
  rollback_rate : ℚ
  change_frequency : ℚ
  error_spike_history : ℚ
  latency_instability : ℚ
  risk_score : ℚ
  decision : DeploymentDecision
  deriving DecidableEq, Repr

/-- `GraphEdge` from src/app/models.py. -/
structure GraphEdge where
  source : String
  target : String
  deriving DecidableEq, Repr

/-- `SimulationSummary` from src/app/models.py; the UTC timestamp is
abstracted as an integer instant. -/
structure SimulationSummary where
  average_risk : ℚ
  highest_risk_service : String
  highest_risk_score : ℚ
  blocked_services : List String
  blocked_count : ℕ
  timestamp_utc : ℤ
  deriving DecidableEq, Repr

/-- `HistoricalRecord` from src/app/models.py. -/
structure HistoricalRecord where
  summary : SimulationSummary
  services : List ServiceMetrics
  deriving DecidableEq, Repr

/-- `SimulationResult` from src/app/models.py. -/
structure SimulationResult where
  summary : SimulationSummary
  services : List ServiceMetrics
  edges : List GraphEdge
  deriving DecidableEq, Repr

/-- The values the engine reads from `Settings` (src/app/config.py).
`dependency_candidates` models `dict.get(service, [])`. -/
structure Settings where
  service_names : List String
  dependency_candidates : String → List String
  history_limit : ℕ

/-- `RiskEngine._classify_risk` (src/app/risk_engine.py lines 186-193). -/
def classify_risk (score : ℚ) : DeploymentDecision :=
  if score < 40 then .autoApprove
  else if score < 70 then .manualReview
  else .blockDeployment

/-- `RiskEngine._normalise_to_percentage` (src/app/risk_engine.py
lines 195-202). -/
def normalise_to_percentage (value : ℚ) : ℚ :=
  if value < 0 then 0
  else if value > 1 then 100
  else value * 100

/-- Python `min(max(x, 0), 100)` as used on the risk score
(src/app/risk_engine.py line 172). -/
def pyClamp (x : ℚ) : ℚ := min (max x 0) 100

/-- `RiskEngine._build_service_metrics` (src/app/risk_engine.py
lines 154-184): the weighted risk formula is applied to the values handed
over by `_generate_service_metrics`; each stored signal is rounded to two
decimals. -/
def build_service_metrics (service : String) (dep rb cf es li : ℚ) :
    ServiceMetrics :=
  let risk := 0.4 * dep + 0.2 * rb + 0.15 * cf + 0.15 * es + 0.1 * li
  let risk2 := round2 (pyClamp risk)
  { service_name := service
    dependency_impact_score := round2 dep
    rollback_rate := round2 rb
    change_frequency := round2 cf
    error_spike_history := round2 es
    latency_instability := round2 li
    risk_score := risk2
    decision := classify_risk risk2 }

/-- The rollback-rate computation of `_generate_service_metrics`
(src/app/risk_engine.py lines 134-140): the raw uniform draw is dampened by
0.85 for blocked services, then normalised. -/
def rollback_rate_signal (blocked : Bool) (raw : ℚ) : ℚ :=
  normalise_to_percentage ((if blocked then raw * 0.85 else raw) / 100)

/-! ### The networkx `DiGraph` as used by the engine -/

/-- The fragment of `networkx.DiGraph` the engine uses: nodes in insertion
order, directed edges in insertion order, both duplicate-free. -/
structure DiGraph where
  nodes : List String
  edges : List (String × String)
  deriving DecidableEq, Repr

/-- `DiGraph.add_node`: appends the node unless already present. -/
def addNode (g : DiGraph) (v : String) : DiGraph :=
  if v ∈ g.nodes then g else { g with nodes := g.nodes ++ [v] }

/-- `DiGraph.add_edge`: registers both endpoints as nodes and appends the
edge unless already present. -/
def addEdge (g : DiGraph) (u v : String) : DiGraph :=
  let g1 := addNode (addNode g u) v
  if (u, v) ∈ g1.edges then g1 else { g1 with edges := g1.edges ++ [(u, v)] }

/-- `DiGraph.add_nodes_from`. -/
def addNodesFrom (g : DiGraph) (vs : List String) : DiGraph :=
  vs.foldl addNode g

/-- In-degree of a node: number of edges targeting it. -/
def inDegree (g : DiGraph) (v : String) : ℕ :=
  (g.edges.filter (fun e => e.2 = v)).length

/-- Out-degree of a node: number of edges leaving it. -/
def outDegree (g : DiGraph) (v : String) : ℕ :=
  (g.edges.filter (fun e => e.1 = v)).length

/-- Total degree, the quantity `nx.isolates` tests against zero. -/
def degree (g : DiGraph) (v : String) : ℕ := inDegree g v + outDegree g v

/-! ### Random draws, abstracted

numpy's `default_rng(seed)` is external to this repository; the spec (§9)
states it is a pure function of `(seed, call-order)`.  A run's draws are
therefore modelled as oracle functions; `Draws.Admissible` states exactly the
constraints the source's calls impose on each draw. -/

/-- The random draws one `run_simulation` call consumes, per service:
the candidate subset chosen for the dependency edges, the repair partner
used for an isolated node, and the four uniform signal draws. -/
structure Draws where
  chosen : String → List String
  repair : String → String
  rollback : String → ℚ
  changeFreq : String → ℚ
  errorSpike : String → ℚ
  latency : String → ℚ

/-- Constraints the source imposes on the draws: `rng.integers(0, max_edges+1)`
bounds the chosen-candidate count by `max(1, len(candidates)//2)`;
`rng.choice(candidates, size=k, replace=False)` yields distinct members of the
candidate list; the repair partner is drawn from the other services; uniform
signal draws lie in `[0, 100]`. -/
def Draws.Admissible (st : Settings) (d : Draws) : Prop :=
  (∀ s ∈ st.service_names,
      (d.chosen s).length ≤ max 1 ((st.dependency_candidates s).length / 2) ∧
      (d.chosen s).Nodup ∧
      ∀ c ∈ d.chosen s, c ∈ st.dependency_candidates s) ∧
  (∀ s ∈ st.service_names, d.repair s ∈ st.service_names ∧ d.repair s ≠ s) ∧
  (∀ s ∈ st.service_names,
      (0 ≤ d.rollback s ∧ d.rollback s ≤ 100) ∧
      (0 ≤ d.changeFreq s ∧ d.changeFreq s ≤ 100) ∧
      (0 ≤ d.errorSpike s ∧ d.errorSpike s ≤ 100) ∧
      (0 ≤ d.latency s ∧ d.latency s ≤ 100))

instance (st : Settings) (d : Draws) : Decidable (Draws.Admissible st d) := by
  unfold Draws.Admissible
  infer_instance

/-- The node-creation step of `_generate_dependency_graph`
(src/app/risk_engine.py line 79-81): an empty graph holding one node per
configured service. -/
def initial_graph (st : Settings) : DiGraph :=
  addNodesFrom { nodes := [], edges := [] } st.service_names

/-- The candidate-edge loop of `_generate_dependency_graph`
(src/app/risk_engine.py lines 83-92): services with an empty candidate list
are skipped; each drawn candidate `c ≠ s` contributes the edge `c → s`. -/
def candidate_graph (st : Settings) (d : Draws) : DiGraph :=
  st.service_names.foldl
    (fun g s =>
      if st.dependency_candidates s = [] then g
      else (d.chosen s).foldl
        (fun g' c => if c ≠ s then addEdge g' c s else g') g)
    (initial_graph st)

/-- `RiskEngine._generate_dependency_graph` (src/app/risk_engine.py
lines 77-100): the candidate phase followed by the repair pass, which adds
an in-edge from the drawn partner to every node isolated after the
candidate phase (`nx.isolates` is materialised once, before repairs). -/
def generate_dependency_graph (st : Settings) (d : Draws) : DiGraph :=
  let g1 := candidate_graph st d
  let isolated := g1.nodes.filter (fun v => degree g1 v = 0)
  isolated.foldl (fun g v => addEdge g (d.repair v) v) g1

/-- `RiskEngine._collect_blocked_services` (src/app/risk_engine.py
lines 102-113): the names with decision `BLOCK_DEPLOYMENT` in the most
recent history entry, empty when there is no history. -/
def collect_blocked_services (history : List HistoricalRecord) : List String :=
  match history.getLast? with
  | none => []
  | some latest =>
      (latest.services.filter
        (fun m => m.decision = DeploymentDecision.blockDeployment)).map
        (fun m => m.service_name)

/-- One comparison step of Python's `max(l, key := f)`: the running best is
replaced only on a strictly greater key, so ties keep the earlier element. -/
def pyMaxStep {α : Type} (f : α → ℚ) (best y : α) : α :=
  if f best < f y then y else best

/-- Python's `max(l, key := f)`: `none` on an empty list (where CPython
raises `ValueError`), otherwise the first element attaining the maximal
key. -/
def pyMaxBy {α : Type} (f : α → ℚ) : List α → Option α
  | [] => none
  | x :: xs => some (xs.foldl (pyMaxStep f) x)

/-- The spec's contract for the external betweenness-centrality call
(networkx; spec §4.2 and §9): a per-node value normalised to `[0, 1]`. -/
def BCValid (g : DiGraph) (bc : String → ℚ) : Prop :=
  ∀ v ∈ g.nodes, 0 ≤ bc v ∧ bc v ≤ 1

instance (g : DiGraph) (bc : String → ℚ) : Decidable (BCValid g bc) := by
  unfold BCValid
  infer_instance

/-- `RiskEngine._generate_service_metrics` (src/app/risk_engine.py
lines 115-152), with the betweenness-centrality library call abstracted as
`bc`.  Mirrors the source: the in-degree ratio guards against a zero maximum
in-degree, the rollback draw is dampened for blocked services and normalised,
the other three uniform draws are rounded to two decimals before the record
is built, and the records are sorted by service name. -/
def generate_service_metrics (g : DiGraph) (blocked : List String) (d : Draws)
    (bc : String → ℚ) : List ServiceMetrics :=
  let maxInDegree : ℕ :=
    match g.nodes with
    | [] => 1
    | _ => (g.nodes.map (fun v => inDegree g v)).foldl Nat.max 0
  let services := g.nodes.map (fun s =>
    let ratio : ℚ :=
      if maxInDegree = 0 then 0 else (inDegree g s : ℚ) / (maxInDegree : ℚ)
    let dependency_score := normalise_to_percentage (0.6 * bc s + 0.4 * ratio)
    let rollback := rollback_rate_signal (blocked.contains s) (d.rollback s)
    let cf := round2 (d.changeFreq s)
    let es := round2 (d.errorSpike s)
    let li := round2 (d.latency s)
    build_service_metrics s dependency_score rollback cf es li)
  services.insertionSort (fun a b => a.service_name ≤ b.service_name)

/-- `RiskEngine._summarise_services` (src/app/risk_engine.py lines 204-218).
The source raises `ValueError` from `max` on an empty service list; that
failure is modelled as `none`. -/
def summarise_services (services : List ServiceMetrics) (now : ℤ) :
    Option SimulationSummary :=
  let risks := services.map (fun m => m.risk_score)
  let average_risk := if risks = [] then 0 else round2 (risks.sum / risks.length)
  match pyMaxBy (fun m => m.risk_score) services with
  | none => none
  | some highest =>
      let blocked := (services.filter
        (fun m => m.decision = DeploymentDecision.blockDeployment)).map
        (fun m => m.service_name)
      some { average_risk := average_risk
             highest_risk_service := highest.service_name
             highest_risk_score := highest.risk_score
             blocked_services := blocked
             blocked_count := blocked.length
             timestamp_utc := now }

/-- `RiskEngine.run_simulation` (src/app/risk_engine.py lines 29-44), with
the seed-derived random stream abstracted as `d`, the betweenness library
call abstracted as `bc`, and the wall clock abstracted as `now`. -/
def run_simulation (st : Settings) (history : List HistoricalRecord)
    (d : Draws) (bc : DiGraph → String → ℚ) (now : ℤ) :
    Option SimulationResult :=
  let g := generate_dependency_graph st d
  let blocked := collect_blocked_services history
  let services := generate_service_metrics g blocked d (bc g)
  match summarise_services services now with
  | none => none
  | some summary =>
      some { summary := summary
             services := services
             edges := g.edges.map (fun e => { source := e.1, target := e.2 }) }

/-- `SimulationStorage.record` (src/app/storage.py lines 34-42): append the
entry, then trim to the last `limit` entries when over the limit. -/
def record {α : Type} (limit : ℕ) (history : List α) (entry : α) : List α :=
  let h := history ++ [entry]
  if limit < h.length then h.drop (h.length - limit) else h

/-- `RiskEngine.update_history` (src/app/risk_engine.py lines 50-57): the
same append-then-trim step. -/
def update_history {α : Type} (limit : ℕ) (history : List α) (entry : α) :
    List α :=
  let newHistory := history ++ [entry]
  if limit < newHistory.length then
    newHistory.drop (newHistory.length - limit)
  else newHistory

/-- `_find_service_metric` (src/app/main.py lines 296-303): first service
with the requested name, else the first highest-risk service; `none` only
when the run has no services (where CPython's `max` raises). -/
def find_service_metric (services : List ServiceMetrics) (name : String) :
    Option ServiceMetrics :=
  match services.find? (fun m => m.service_name = name) with
  | some m => some m
  | none => pyMaxBy (fun m => m.risk_score) services

/-- The data of the `cicd_hook` response (src/app/main.py lines 263-280):
the message interpolates the score formatted `:.0f` (round-half-even to an
integer) and the decision label, alongside the raw score and decision. -/
structure CICDHookResponse where
  message_score : ℤ
  message_decision : DeploymentDecision
  risk_score : ℚ
  decision : DeploymentDecision
  deriving DecidableEq, Repr

/-- `cicd_hook` (src/app/main.py lines 263-280), restricted to how the
response is assembled from the run result and the requested service name. -/
def cicd_hook (result : SimulationResult) (serviceName : String) :
    Option CICDHookResponse :=
  (find_service_metric result.services serviceName).map fun m =>
    { message_score := roundHalfEven m.risk_score
      message_decision := m.decision
      risk_score := m.risk_score
      decision := m.decision }

/-- The value the spec's risk-formula sentence predicts for a stored record:
the weighted formula applied to the service's own stored (2-decimal-rounded)
signal values, clamped and rounded.  Written from the spec's words (§4.5 and
§8), to be compared against the engine's stored `risk_score`. -/
def specRiskFromStoredSignals (m : ServiceMetrics) : ℚ :=
  round2 (pyClamp (0.4 * m.dependency_impact_score + 0.2 * m.rollback_rate +
    0.15 * m.change_frequency + 0.15 * m.error_spike_history +
    0.1 * m.latency_instability))

/-! ### Concrete configurations and runs, used by counterexamples and
witnesses -/

/-- A two-service configuration with no dependency candidates: both nodes
are isolated after the candidate phase and get repaired. -/
def settingsA : Settings :=
  { service_names := ["a", "b"]
    dependency_candidates := fun _ => []
    history_limit := 1 }

/-- An admissible assignment of random draws for `settingsA`.  Service `a`
draws rollback `0.0151` and change frequency `0.01`; everything else draws
zero. -/
def drawsA : Draws :=
  { chosen := fun _ => []
    repair := fun s => if s = "a" then "b" else "a"
    rollback := fun s => if s = "a" then 151/10000 else 0
    changeFreq := fun s => if s = "a" then 1/100 else 0
    errorSpike := fun _ => 0
    latency := fun _ => 0 }

/-- Betweenness centrality of the graph `generate_dependency_graph settingsA
drawsA` (the two-cycle `a ⇄ b`): with only two nodes no shortest path has an
interior node, so every value is `0`. -/
def bcZero : DiGraph → String → ℚ := fun _ _ => 0

/-- A filler summary for hand-built result records. -/
def summaryStub : SimulationSummary :=
  { average_risk := 0
    highest_risk_service := ""
    highest_risk_score := 0
    blocked_services := []
    blocked_count := 0
    timestamp_utc := 0 }

/-- A hand-built service record (constructor for concrete test data). -/
def mkMetric (name : String) (risk : ℚ) (dec : DeploymentDecision) :
    ServiceMetrics :=
  { service_name := name
    dependency_impact_score := 0
    rollback_rate := 0
    change_frequency := 0
    error_spike_history := 0
    latency_instability := 0
    risk_score := risk
    decision := dec }

/-- A concrete run result for the CI/CD hook claims: two services, the
highest-risk one named `"b"`. -/
def resultB : SimulationResult :=
  { summary := summaryStub
    services := [mkMetric "a" 10 .autoApprove, mkMetric "b" 80 .blockDeployment]
    edges := [] }

/-- The metrics `run_simulation settingsA [] drawsA bcZero 0` produces for
service `"a"`. -/
def metricA : ServiceMetrics :=
  { service_name := "a"
    dependency_impact_score := 40
    rollback_rate := 1/50
    change_frequency := 1/100
    error_spike_history := 0
    latency_instability := 0
    risk_score := 16
    decision := .autoApprove }

/-- The metrics `run_simulation settingsA [] drawsA bcZero 0` produces for
service `"b"`. -/
def metricB : ServiceMetrics :=
  { service_name := "b"
    dependency_impact_score := 40
    rollback_rate := 0
    change_frequency := 0
    error_spike_history := 0
    latency_instability := 0
    risk_score := 16
    decision := .autoApprove }

/-- The full result of `run_simulation settingsA [] drawsA bcZero 0`. -/
def resultA : SimulationResult :=
  { summary :=
      { average_risk := 16
        highest_risk_service := "a"
        highest_risk_score := 16
        blocked_services := []
        blocked_count := 0
        timestamp_utc := 0 }
    services := [metricA, metricB]
    edges := [{ source := "b", target := "a" }, { source := "a", target := "b" }] }

/-! ### Helper lemmas -/

lemma roundHalfEven_intCast (n : ℤ) : roundHalfEven (n : ℚ) = n := by
  unfold roundHalfEven
  norm_num

lemma round2_round2 (q : ℚ) : round2 (round2 q) = round2 q := by
  unfold round2
  rw [div_mul_cancel₀ _ (by norm_num : (100 : ℚ) ≠ 0), roundHalfEven_intCast]

/-! ### Claim theorems -/

/-- C2: the deployment decision is determined exclusively by the risk-score
thresholds — `risk_score < 40` gives AutoApprove, `40 ≤ risk_score < 70`
gives ManualReview, `risk_score ≥ 70` gives BlockDeployment — and the
boundaries land exactly as stated: 39.99 → AutoApprove, 40.00 →
ManualReview, 69.99 → ManualReview, 70.00 → BlockDeployment.  The stored
decision of every built record is the classification of its stored risk
score. -/
theorem decision_thresholds :
    (∀ score : ℚ,
      (classify_risk score = DeploymentDecision.autoApprove ↔ score < 40) ∧
      (classify_risk score = DeploymentDecision.manualReview ↔
        40 ≤ score ∧ score < 70) ∧
      (classify_risk score = DeploymentDecision.blockDeployment ↔
        70 ≤ score)) ∧
    (∀ (service : String) (dep rb cf es li : ℚ),
      (build_service_metrics service dep rb cf es li).decision =
        classify_risk (build_service_metrics service dep rb cf es li).risk_score) ∧
    classify_risk 39.99 = DeploymentDecision.autoApprove ∧
    classify_risk 40 = DeploymentDecision.manualReview ∧
    classify_risk 69.99 = DeploymentDecision.manualReview ∧
    classify_risk 70 = DeploymentDecision.blockDeployment := by
  refine ⟨fun score => ?_, fun service dep rb cf es li => rfl, ?_, ?_, ?_, ?_⟩
  · unfold classify_risk
    split_ifs with h1 h2 <;>
      (refine ⟨?_, ?_, ?_⟩ <;> simp_all) <;> linarith
  all_goals norm_num [classify_risk]

/-- C6: for a raw rollback draw `v ∈ [0, 100]`, a blocked service's
normalised rollback rate is exactly `0.85` times that of a non-blocked
service with the same draw (before the 2-decimal rounding), and a
non-blocked service's normalised rate is the raw draw itself (unaffected). -/
theorem rollback_dampening (raw : ℚ) (h0 : 0 ≤ raw) (h1 : raw ≤ 100) :
    rollback_rate_signal true raw = 0.85 * rollback_rate_signal false raw ∧
    rollback_rate_signal false raw = raw := by
  have hfalse : rollback_rate_signal false raw = raw := by
    unfold rollback_rate_signal normalise_to_percentage
    rw [if_neg Bool.false_ne_true,
      if_neg (not_lt.mpr (by positivity : (0:ℚ) ≤ raw / 100)),
      if_neg (not_lt.mpr (by linarith : raw / 100 ≤ 1))]
    field_simp
  have htrue : rollback_rate_signal true raw = 0.85 * raw := by
    unfold rollback_rate_signal normalise_to_percentage
    rw [if_pos rfl,
      if_neg (not_lt.mpr (by positivity : (0:ℚ) ≤ raw * 0.85 / 100)),
      if_neg (not_lt.mpr (by linarith : raw * 0.85 / 100 ≤ 1))]
    ring
  exact ⟨by rw [htrue, hfalse], hfalse⟩

/-- Witness for C6 at the concrete raw draw 50: the blocked signal is 42.5,
0.85 times the non-blocked signal 50. -/
theorem rollback_dampening_witness :
    (0 : ℚ) ≤ 50 ∧ (50 : ℚ) ≤ 100 ∧
    rollback_rate_signal true 50 = 0.85 * rollback_rate_signal false 50 ∧
    rollback_rate_signal false 50 = 50 :=
  ⟨by norm_num, by norm_num,
    (rollback_dampening 50 (by norm_num) (by norm_num)).1,
    (rollback_dampening 50 (by norm_num) (by norm_num)).2⟩

lemma record_eq_drop {α : Type} (N : ℕ) (h : List α) (e : α) :
    record N h e = (h ++ [e]).drop ((h.length + 1) - N) := by
  unfold record
  simp only [List.length_append, List.length_singleton]
  split_ifs with hlt
  · rfl
  · have : h.length + 1 - N = 0 := by omega
    rw [this, List.drop_zero]

lemma record_foldl {α : Type} (N : ℕ) (hN : 1 ≤ N) :
    ∀ (es : List α) (h₀ : List α), es ≠ [] →
      es.foldl (record N) h₀ = (h₀ ++ es).drop ((h₀.length + es.length) - N) := by
  intro es
  induction es with
  | nil => intro h₀ hne; exact absurd rfl hne
  | cons e t ih =>
    intro h₀ _
    rcases eq_or_ne t [] with rfl | hte
    · simpa using record_eq_drop N h₀ e
    · have step : (e :: t).foldl (record N) h₀ = t.foldl (record N) (record N h₀ e) := rfl
      rw [step, ih (record N h₀ e) hte, record_eq_drop N h₀ e]
      have hk : h₀.length + 1 - N ≤ (h₀ ++ [e]).length := by
        simp only [List.length_append, List.length_singleton]
        omega
      rw [List.length_drop, ← List.drop_append_of_le_length hk, List.drop_drop]
      have harr : (h₀ ++ [e]) ++ t = h₀ ++ e :: t := by simp
      rw [harr]
      clear hk
      congr 1
      simp only [List.length_append, List.length_singleton, List.length_cons,
        List.length_nil]
      omega

/-- C4: for any starting ledger state and capacity `N ∈ [1, 20]`, a
`record()` call leaves at most `N` entries, eviction removes from the front
(the result is the tail end of the appended sequence, newest last),
`RiskEngine.update_history` performs the identical step, and after `N + 1`
`record()` calls the ledger holds exactly the last `N` inserted entries in
insertion order. -/
theorem ledger_record_capacity {α : Type} (N : ℕ) (h₀ : List α) (e : α)
    (es : List α) (hN1 : 1 ≤ N) (hN20 : N ≤ 20) :
    (record N h₀ e).length ≤ N ∧
    record N h₀ e = (h₀ ++ [e]).drop ((h₀.length + 1) - N) ∧
    update_history N h₀ e = record N h₀ e ∧
    (es.length = N + 1 → es.foldl (record N) h₀ = es.drop 1) := by
  refine ⟨?_, record_eq_drop N h₀ e, rfl, ?_⟩
  · rw [record_eq_drop N h₀ e, List.length_drop]
    simp only [List.length_append, List.length_singleton]
    omega
  · intro hlen
    have hne : es ≠ [] := by
      intro h
      rw [h] at hlen
      simp at hlen
    rw [record_foldl N hN1 es h₀ hne, hlen]
    have hidx : h₀.length + (N + 1) - N = h₀.length + 1 := by omega
    rw [hidx, List.drop_append]

/-- Witness for C4: capacity 2, three recorded entries; the ledger keeps the
last two. -/
theorem ledger_record_capacity_witness :
    (1 : ℕ) ≤ 2 ∧ (2 : ℕ) ≤ 20 ∧ ([10, 20, 30] : List ℕ).length = 2 + 1 ∧
    (record 2 [] (10 : ℕ)).length ≤ 2 ∧
    ([10, 20, 30] : List ℕ).foldl (record 2) [] = [20, 30] := by
  have h := ledger_record_capacity 2 ([] : List ℕ) 10 [10, 20, 30]
    (by norm_num) (by norm_num)
  exact ⟨by norm_num, by norm_num, by simp,
    h.1, by simpa using h.2.2.2 (by simp)⟩

/-- C5: the blocked set of History Feedback is exactly the set of service
names whose decision in the most recent (last) history record is
BlockDeployment, regardless of all earlier records; an empty snapshot gives
an empty blocked set. -/
theorem blocked_set_from_latest_record :
    collect_blocked_services [] = [] ∧
    ∀ (earlier : List HistoricalRecord) (latest : HistoricalRecord) (x : String),
      x ∈ collect_blocked_services (earlier ++ [latest]) ↔
        ∃ m ∈ latest.services,
          m.decision = DeploymentDecision.blockDeployment ∧
          m.service_name = x := by
  refine ⟨rfl, fun earlier latest x => ?_⟩
  unfold collect_blocked_services
  rw [List.getLast?_concat]
  simp only [List.mem_map, List.mem_filter, decide_eq_true_eq]
  constructor
  · rintro ⟨m, ⟨hm, hdec⟩, hname⟩
    exact ⟨m, hm, hdec, hname⟩
  · rintro ⟨m, hm, hdec, hname⟩
    exact ⟨m, ⟨hm, hdec⟩, hname⟩

/-! ### Graph lemmas for the isolation and self-loop claims -/

/-- A node has at least one incident edge. -/
def Incident (g : DiGraph) (v : String) : Prop :=
  ∃ e ∈ g.edges, e.1 = v ∨ e.2 = v

lemma edges_addNode (g : DiGraph) (v : String) :
    (addNode g v).edges = g.edges := by
  unfold addNode
  split <;> rfl

lemma mem_nodes_addNode (g : DiGraph) (v x : String) :
    x ∈ (addNode g v).nodes ↔ x ∈ g.nodes ∨ x = v := by
  unfold addNode
  by_cases h : v ∈ g.nodes
  · rw [if_pos h]
    constructor
    · exact Or.inl
    · rintro (hx | rfl)
      · exact hx
      · exact h
  · rw [if_neg h]
    simp [List.mem_append]

lemma mem_edges_addEdge (g : DiGraph) (u v : String) (e : String × String) :
    e ∈ (addEdge g u v).edges ↔ e ∈ g.edges ∨ e = (u, v) := by
  unfold addEdge
  simp only [edges_addNode]
  by_cases h : (u, v) ∈ g.edges
  · rw [if_pos h]
    simp only [edges_addNode]
    constructor
    · exact Or.inl
    · rintro (he | rfl)
      · exact he
      · exact h
  · rw [if_neg h]
    simp [edges_addNode, List.mem_append]

lemma mem_nodes_addEdge (g : DiGraph) (u v x : String) :
    x ∈ (addEdge g u v).nodes ↔ x ∈ g.nodes ∨ x = u ∨ x = v := by
  unfold addEdge
  simp only [edges_addNode]
  by_cases h : (u, v) ∈ g.edges
  · rw [if_pos h]
    simp [mem_nodes_addNode, or_assoc]
  · rw [if_neg h]
    simp [mem_nodes_addNode, or_assoc]

lemma incident_addEdge_of_incident (g : DiGraph) (u v x : String)
    (h : Incident g x) : Incident (addEdge g u v) x := by
  obtain ⟨e, he, hx⟩ := h
  exact ⟨e, (mem_edges_addEdge g u v e).mpr (Or.inl he), hx⟩

lemma incident_addEdge_left (g : DiGraph) (u v : String) :
    Incident (addEdge g u v) u :=
  ⟨(u, v), (mem_edges_addEdge g u v (u, v)).mpr (Or.inr rfl), Or.inl rfl⟩

lemma incident_addEdge_right (g : DiGraph) (u v : String) :
    Incident (addEdge g u v) v :=
  ⟨(u, v), (mem_edges_addEdge g u v (u, v)).mpr (Or.inr rfl), Or.inr rfl⟩

lemma incident_iff_degree_pos (g : DiGraph) (v : String) :
    Incident g v ↔ 0 < degree g v := by
  unfold Incident degree inDegree outDegree
  rw [Nat.pos_iff_ne_zero]
  simp only [Ne, Nat.add_eq_zero, not_and_or, ← Nat.pos_iff_ne_zero,
    List.length_pos_iff_exists_mem, List.mem_filter, decide_eq_true_eq]
  constructor
  · rintro ⟨e, he, rfl | rfl⟩
    · exact Or.inr ⟨e, he, rfl⟩
    · exact Or.inl ⟨e, he, rfl⟩
  · rintro (⟨e, he, hv⟩ | ⟨e, he, hv⟩)
    · exact ⟨e, he, Or.inr hv⟩
    · exact ⟨e, he, Or.inl hv⟩

/-- A graph predicate is preserved by a fold whose step preserves it on the
listed elements. -/
lemma foldl_preserve {β : Type} (step : DiGraph → β → DiGraph)
    (P : DiGraph → Prop) :
    ∀ (l : List β) (g : DiGraph),
      (∀ g' b, b ∈ l → P g' → P (step g' b)) → P g → P (l.foldl step g) := by
  intro l
  induction l with
  | nil => exact fun g _ hg => hg
  | cons b t ih =>
    intro g h hg
    exact ih (step g b) (fun g' b' hb' => h g' b' (List.mem_cons_of_mem _ hb'))
      (h g b (List.mem_cons_self _ _) hg)

/-- Every node of the graph is a configured service or has an incident
edge. -/
def NodesCovered (st : Settings) (g : DiGraph) : Prop :=
  ∀ x ∈ g.nodes, x ∈ st.service_names ∨ Incident g x

/-- No edge is a self-loop. -/
def NoSelfLoop (g : DiGraph) : Prop :=
  ∀ e ∈ g.edges, e.1 ≠ e.2

lemma nodesCovered_addEdge (st : Settings) (g : DiGraph) (u v : String)
    (h : NodesCovered st g) : NodesCovered st (addEdge g u v) := by
  intro x hx
  rcases (mem_nodes_addEdge g u v x).mp hx with hg | hu | hv
  · rcases h x hg with hn | hi
    · exact Or.inl hn
    · exact Or.inr (incident_addEdge_of_incident g u v x hi)
  · exact Or.inr (hu ▸ incident_addEdge_left g u v)
  · exact Or.inr (hv ▸ incident_addEdge_right g u v)

lemma mem_nodes_addNodesFrom (g : DiGraph) (l : List String) (x : String) :
    x ∈ (addNodesFrom g l).nodes ↔ x ∈ g.nodes ∨ x ∈ l := by
  unfold addNodesFrom
  induction l generalizing g with
  | nil => simp
  | cons v t ih =>
    rw [List.foldl_cons, ih, mem_nodes_addNode]
    simp only [List.mem_cons]
    tauto

lemma edges_addNodesFrom (g : DiGraph) (l : List String) :
    (addNodesFrom g l).edges = g.edges := by
  unfold addNodesFrom
  induction l generalizing g with
  | nil => rfl
  | cons v t ih => rw [List.foldl_cons, ih, edges_addNode]

/-- The candidate phase keeps every node covered and adds no self-loop. -/
lemma candidate_graph_invariants (st : Settings) (d : Draws) :
    NodesCovered st (candidate_graph st d) ∧ NoSelfLoop (candidate_graph st d) := by
  unfold candidate_graph
  have hinit : NodesCovered st (initial_graph st) ∧ NoSelfLoop (initial_graph st) := by
    constructor
    · intro x hx
      have hx' := (mem_nodes_addNodesFrom { nodes := [], edges := [] }
        st.service_names x).mp hx
      exact Or.inl (by simpa using hx')
    · intro e he
      rw [initial_graph, edges_addNodesFrom] at he
      simp at he
  refine foldl_preserve _ (fun g => NodesCovered st g ∧ NoSelfLoop g)
    st.service_names (initial_graph st) ?_ hinit
  intro g s _ hg
  by_cases hcand : st.dependency_candidates s = []
  · rwa [if_pos hcand]
  · rw [if_neg hcand]
    refine foldl_preserve _ (fun g => NodesCovered st g ∧ NoSelfLoop g)
      (d.chosen s) g ?_ hg
    intro g' c _ hg'
    by_cases hc : c ≠ s
    · rw [if_pos hc]
      constructor
      · exact nodesCovered_addEdge st g' c s hg'.1
      · intro e he
        rcases (mem_edges_addEdge g' c s e).mp he with he' | rfl
        · exact hg'.2 e he'
        · exact hc
    · rwa [if_neg hc]

/-- After the repair fold, every node that was scheduled for repair or
already covered is incident to some edge. -/
lemma repair_fold_incident (d : Draws) :
    ∀ (l : List String) (g : DiGraph),
      (∀ x ∈ g.nodes, x ∈ l ∨ Incident g x) →
      ∀ x ∈ (l.foldl (fun g' v => addEdge g' (d.repair v) v) g).nodes,
        Incident (l.foldl (fun g' v => addEdge g' (d.repair v) v) g) x := by
  intro l
  induction l with
  | nil =>
    intro g h x hx
    rcases h x hx with hfalse | hi
    · simp at hfalse
    · exact hi
  | cons v t ih =>
    intro g h x hx
    refine ih (addEdge g (d.repair v) v) ?_ x hx
    intro y hy
    rcases (mem_nodes_addEdge g (d.repair v) v y).mp hy with hg | hu | hv
    · rcases h y hg with hvt | hi
      · rcases List.mem_cons.mp hvt with hyv | ht
        · exact Or.inr (hyv ▸ incident_addEdge_right g (d.repair v) v)
        · exact Or.inl ht
      · exact Or.inr (incident_addEdge_of_incident g (d.repair v) v y hi)
    · exact Or.inr (hu ▸ incident_addEdge_left g (d.repair v) v)
    · exact Or.inr (hv ▸ incident_addEdge_right g (d.repair v) v)

/-- C3: for every configured service set with at least two services and
every admissible assignment of random draws, the graph produced by
`_generate_dependency_graph` (after its repair pass) has no isolated node:
every node has in-degree + out-degree at least 1. -/
theorem graph_no_isolated_nodes (st : Settings) (d : Draws)
    (_hlen : 2 ≤ st.service_names.length) (_hadm : Draws.Admissible st d) :
    ∀ v ∈ (generate_dependency_graph st d).nodes,
      1 ≤ inDegree (generate_dependency_graph st d) v +
        outDegree (generate_dependency_graph st d) v := by
  intro v hv
  have hinc : Incident (generate_dependency_graph st d) v := by
    unfold generate_dependency_graph at hv ⊢
    refine repair_fold_incident d _ (candidate_graph st d) ?_ v hv
    intro x hx
    by_cases hdeg : degree (candidate_graph st d) x = 0
    · exact Or.inl (List.mem_filter.mpr ⟨hx, by simpa using hdeg⟩)
    · exact Or.inr ((incident_iff_degree_pos _ x).mpr (Nat.pos_of_ne_zero hdeg))
  exact (incident_iff_degree_pos _ v).mp hinc

/-- Witness for C3 on the concrete two-service configuration: node `"a"`
of the generated graph has positive total degree. -/
theorem graph_no_isolated_nodes_witness :
    2 ≤ settingsA.service_names.length ∧ Draws.Admissible settingsA drawsA ∧
    1 ≤ inDegree (generate_dependency_graph settingsA drawsA) "a" +
      outDegree (generate_dependency_graph settingsA drawsA) "a" :=
  ⟨by norm_num [settingsA], by with_unfolding_all decide,
    graph_no_isolated_nodes settingsA drawsA (by norm_num [settingsA])
      (by with_unfolding_all decide) "a" (by with_unfolding_all decide)⟩

/-- C10: for every configured service set and admissible draws, the
generated dependency graph has no self-loop: no edge has equal source and
target (candidates equal to the service are skipped, and the repair partner
is distinct from the isolated node). -/
theorem graph_no_self_loops (st : Settings) (d : Draws)
    (hadm : Draws.Admissible st d) :
    ∀ e ∈ (generate_dependency_graph st d).edges, e.1 ≠ e.2 := by
  have hcand := candidate_graph_invariants st d
  unfold generate_dependency_graph
  refine foldl_preserve _ NoSelfLoop _ (candidate_graph st d) ?_ hcand.2
  intro g v hviso hg
  have hvnode : v ∈ (candidate_graph st d).nodes :=
    (List.mem_filter.mp hviso).1
  have hvdeg : degree (candidate_graph st d) v = 0 := by
    have := (List.mem_filter.mp hviso).2
    simpa using this
  have hvname : v ∈ st.service_names := by
    rcases hcand.1 v hvnode with hn | hi
    · exact hn
    · have := (incident_iff_degree_pos _ v).mp hi
      omega
  have hrep : d.repair v ≠ v := (hadm.2.1 v hvname).2
  intro e he
  rcases (mem_edges_addEdge g (d.repair v) v e).mp he with he' | rfl
  · exact hg e he'
  · exact hrep

/-- Witness for C10: in the concrete two-service run the edge `("b", "a")`
of the generated graph has distinct source and target. -/
theorem graph_no_self_loops_witness :
    Draws.Admissible settingsA drawsA ∧
    ("b", "a") ∈ (generate_dependency_graph settingsA drawsA).edges ∧
    ("b" : String) ≠ "a" :=
  ⟨by with_unfolding_all decide, by with_unfolding_all decide,
    graph_no_self_loops settingsA drawsA (by with_unfolding_all decide)
      ("b", "a") (by with_unfolding_all decide)⟩

/-! ### Characterisation of Python's `max(l, key := f)` -/

lemma pyMaxStep_foldl_spec {α : Type} (f : α → ℚ) :
    ∀ (t : List α) (a : α),
      (∀ y ∈ a :: t, f y ≤ f (t.foldl (pyMaxStep f) a)) ∧
      ∃ l1 l2, a :: t = l1 ++ (t.foldl (pyMaxStep f) a) :: l2 ∧
        ∀ y ∈ l1, f y < f (t.foldl (pyMaxStep f) a) := by
  intro t
  induction t with
  | nil =>
    intro a
    refine ⟨?_, [], [], rfl, by simp⟩
    intro y hy
    rcases List.mem_cons.mp hy with hya | hf
    · exact le_of_eq (congrArg f hya)
    · simp at hf
  | cons b t ih =>
    intro a
    have hstep : (b :: t).foldl (pyMaxStep f) a = t.foldl (pyMaxStep f) (pyMaxStep f a b) := rfl
    obtain ⟨ihbound, m1, m2, ihdec, ihlt⟩ := ih (pyMaxStep f a b)
    have hab : f a ≤ f (pyMaxStep f a b) ∧ f b ≤ f (pyMaxStep f a b) := by
      unfold pyMaxStep
      by_cases hlt : f a < f b
      · rw [if_pos hlt]
        exact ⟨le_of_lt hlt, le_refl _⟩
      · rw [if_neg hlt]
        exact ⟨le_refl _, le_of_not_lt hlt⟩
    constructor
    · intro y hy
      rw [hstep]
      rcases List.mem_cons.mp hy with hya | hy'
      · rw [hya]
        exact le_trans hab.1 (ihbound _ (List.mem_cons_self _ _))
      · rcases List.mem_cons.mp hy' with hyb | hyt
        · rw [hyb]
          exact le_trans hab.2 (ihbound _ (List.mem_cons_self _ _))
        · exact ihbound y (List.mem_cons_of_mem _ hyt)
    · rw [hstep]
      set r := t.foldl (pyMaxStep f) (pyMaxStep f a b) with hr
      rcases m1 with _ | ⟨c, m1'⟩
      · -- The best of the tail run is `pyMaxStep f a b` itself.
        have hbr : pyMaxStep f a b = r := by
          have := ihdec
          simp only [List.nil_append] at this
          exact (List.cons.injEq _ _ _ _).mp this |>.1
        have ht2 : t = m2 := by
          have := ihdec
          simp only [List.nil_append] at this
          exact (List.cons.injEq _ _ _ _).mp this |>.2
        unfold pyMaxStep at hbr
        by_cases hlt : f a < f b
        · rw [if_pos hlt] at hbr
          refine ⟨[a], m2, ?_, ?_⟩
          · rw [← ht2, ← hbr]
            rfl
          · intro y hy
            rcases List.mem_singleton.mp hy with rfl
            rw [← hbr]
            exact hlt
        · rw [if_neg hlt] at hbr
          exact ⟨[], b :: t, by rw [← hbr]; rfl, by simp⟩
      · -- The best sits strictly inside the tail.
        have hc : pyMaxStep f a b = c ∧ t = m1' ++ r :: m2 := by
          have := ihdec
          simp only [List.cons_append] at this
          exact ⟨((List.cons.injEq _ _ _ _).mp this).1,
            ((List.cons.injEq _ _ _ _).mp this).2⟩
        have hcr : f (pyMaxStep f a b) < f r :=
          hc.1 ▸ ihlt c (List.mem_cons_self _ _)
        refine ⟨a :: b :: m1', m2, ?_, ?_⟩
        · rw [hc.2]
          simp
        · intro y hy
          rcases List.mem_cons.mp hy with hya | hy'
          · rw [hya]
            exact lt_of_le_of_lt hab.1 hcr
          · rcases List.mem_cons.mp hy' with hyb | hym
            · rw [hyb]
              exact lt_of_le_of_lt hab.2 hcr
            · exact ihlt y (List.mem_cons_of_mem _ hym)

/-- `pyMaxBy` returns an element whose key bounds every key in the list, and
it is the first such element: everything strictly before it has a strictly
smaller key. -/
lemma pyMaxBy_spec {α : Type} (f : α → ℚ) (l : List α) (m : α)
    (h : pyMaxBy f l = some m) :
    (∀ y ∈ l, f y ≤ f m) ∧
    ∃ l1 l2, l = l1 ++ m :: l2 ∧ ∀ y ∈ l1, f y < f m := by
  match l with
  | [] => exact absurd h (by simp [pyMaxBy])
  | a :: t =>
    have hm : t.foldl (pyMaxStep f) a = m := by
      simpa [pyMaxBy] using h
    obtain ⟨hbound, l1, l2, hdec, hlt⟩ := pyMaxStep_foldl_spec f t a
    rw [hm] at hbound hdec hlt
    exact ⟨hbound, l1, l2, hdec, hlt⟩

/-- C8: for a non-empty per-service metrics list, the summary's
`average_risk` is the 2-decimal-rounded arithmetic mean of the risk scores,
the highest-risk service is the first service in iteration order attaining
the maximum risk score (hence `highest_risk_score` is the maximum over all
services), `blocked_services` is exactly the list of services with decision
BlockDeployment in the per-service order, and `blocked_count` is its
length. -/
theorem summary_aggregates (services : List ServiceMetrics) (now : ℤ)
    (s : SimulationSummary) (h : summarise_services services now = some s) :
    s.average_risk =
      round2 ((services.map (fun m => m.risk_score)).sum / services.length) ∧
    (∃ l1 l2 m, services = l1 ++ m :: l2 ∧
      s.highest_risk_service = m.service_name ∧
      s.highest_risk_score = m.risk_score ∧
      (∀ y ∈ l1, y.risk_score < m.risk_score) ∧
      (∀ y ∈ services, y.risk_score ≤ s.highest_risk_score)) ∧
    s.blocked_services = (services.filter
      (fun m => m.decision = DeploymentDecision.blockDeployment)).map
        (fun m => m.service_name) ∧
    s.blocked_count = s.blocked_services.length ∧
    s.timestamp_utc = now := by
  unfold summarise_services at h
  rcases hmax : pyMaxBy (fun m => m.risk_score) services with _ | highest
  · rw [hmax] at h
    simp at h
  · rw [hmax] at h
    simp only [Option.some.injEq] at h
    obtain ⟨hbound, l1, l2, hdec, hlt⟩ := pyMaxBy_spec _ services highest hmax
    have hne : services ≠ [] := by
      rw [hdec]
      simp
    subst h
    refine ⟨?_, ⟨l1, l2, highest, hdec, rfl, rfl, hlt, hbound⟩, rfl, rfl, rfl⟩
    have hmapne : services.map (fun m => m.risk_score) ≠ [] := by
      simpa using hne
    simp only [if_neg hmapne, List.length_map]

/-- Witness for C8 on a concrete two-service list. -/
theorem summary_aggregates_witness :
    summarise_services [mkMetric "a" 10 .autoApprove,
        mkMetric "b" 80 .blockDeployment] 0 = some
      { average_risk := 45
        highest_risk_service := "b"
        highest_risk_score := 80
        blocked_services := ["b"]
        blocked_count := 1
        timestamp_utc := 0 } ∧
    (45 : ℚ) = round2 ((([mkMetric "a" 10 .autoApprove,
        mkMetric "b" 80 .blockDeployment].map (fun m => m.risk_score)).sum) / 2) ∧
    (["b"] : List String) = ([mkMetric "a" 10 .autoApprove,
        mkMetric "b" 80 .blockDeployment].filter
          (fun m => m.decision = DeploymentDecision.blockDeployment)).map
          (fun m => m.service_name) := by
  have happ : summarise_services [mkMetric "a" 10 .autoApprove,
      mkMetric "b" 80 .blockDeployment] 0 = some
        { average_risk := 45
          highest_risk_service := "b"
          highest_risk_score := 80
          blocked_services := ["b"]
          blocked_count := 1
          timestamp_utc := 0 } := by with_unfolding_all decide
  have h := summary_aggregates [mkMetric "a" 10 .autoApprove,
    mkMetric "b" 80 .blockDeployment] 0 _ happ
  exact ⟨happ, by simpa using h.1, by simpa using h.2.2.1⟩

/-- C7: `run_simulation` is a pure function of the seed-derived random
stream and the ledger snapshot.  Two invocations with the same draws, the
same centrality values and the same snapshot produce identical per-service
metrics (all five signals, risk score and decision, in the same order) and
an identical edge list, independently of the wall clock (which only enters
the summary timestamp). -/
theorem run_simulation_deterministic (st : Settings)
    (history : List HistoricalRecord) (d : Draws)
    (bc : DiGraph → String → ℚ) (t₁ t₂ : ℤ) :
    (run_simulation st history d bc t₁).map (fun r => r.services) =
      (run_simulation st history d bc t₂).map (fun r => r.services) ∧
    (run_simulation st history d bc t₁).map (fun r => r.edges) =
      (run_simulation st history d bc t₂).map (fun r => r.edges) := by
  rcases hserv : generate_service_metrics (generate_dependency_graph st d)
      (collect_blocked_services history) d
      (bc (generate_dependency_graph st d)) with _ | ⟨a, t⟩ <;>
    simp [run_simulation, summarise_services, hserv, pyMaxBy]

/-! ### C9: the CI/CD hook's service lookup -/

/-- C9 (amended): when the requested name is present, `_find_service_metric`
returns the first service with that name and the hook responds with that
service's data; when it is absent and the run is non-empty, the lookup does
not fail but returns the first highest-risk service of the run, and the hook
response is assembled from that substituted service's risk score and
decision. -/
theorem lookup_falls_back_to_highest_risk (result : SimulationResult)
    (name : String) :
    (name ∈ result.services.map (fun m => m.service_name) →
      ∃ m, find_service_metric result.services name = some m ∧
        m.service_name = name ∧ m ∈ result.services ∧
        cicd_hook result name = some
          { message_score := roundHalfEven m.risk_score
            message_decision := m.decision
            risk_score := m.risk_score
            decision := m.decision }) ∧
    (name ∉ result.services.map (fun m => m.service_name) →
      result.services ≠ [] →
      ∃ m, find_service_metric result.services name = some m ∧
        m ∈ result.services ∧
        (∀ y ∈ result.services, y.risk_score ≤ m.risk_score) ∧
        (∃ l1 l2, result.services = l1 ++ m :: l2 ∧
          ∀ y ∈ l1, y.risk_score < m.risk_score) ∧
        cicd_hook result name = some
          { message_score := roundHalfEven m.risk_score
            message_decision := m.decision
            risk_score := m.risk_score
            decision := m.decision }) := by
  constructor
  · intro hpresent
    rcases hf : result.services.find? (fun m => m.service_name = name)
        with _ | m
    · exfalso
      rw [List.find?_eq_none] at hf
      obtain ⟨m, hm, hname⟩ := List.mem_map.mp hpresent
      exact hf m hm (by simp [hname])
    · have hname : m.service_name = name := by
        have := List.find?_some hf
        simpa using this
      have hmem : m ∈ result.services := List.mem_of_find?_eq_some hf
      refine ⟨m, ?_, hname, hmem, ?_⟩
      · unfold find_service_metric
        rw [hf]
      · unfold cicd_hook find_service_metric
        rw [hf]
        rfl
  · intro habsent hne
    have hf : result.services.find? (fun m => m.service_name = name) = none := by
      rw [List.find?_eq_none]
      intro m hm hmname
      exact habsent (List.mem_map.mpr ⟨m, hm, by simpa using hmname⟩)
    rcases hmax : pyMaxBy (fun m => m.risk_score) result.services
        with _ | highest
    · exfalso
      rcases hserv : result.services with _ | ⟨a, t⟩
      · exact hne hserv
      · rw [hserv] at hmax
        simp [pyMaxBy] at hmax
    · obtain ⟨hbound, l1, l2, hdec, hlt⟩ :=
        pyMaxBy_spec _ result.services highest hmax
      refine ⟨highest, ?_, ?_, hbound, ⟨l1, l2, hdec, hlt⟩, ?_⟩
      · unfold find_service_metric
        rw [hf, hmax]
      · rw [hdec]
        exact List.mem_append_right _ (List.mem_cons_self _ _)
      · unfold cicd_hook find_service_metric
        rw [hf, hmax]
        rfl

/-- Witness for C9's amended statement: on the concrete run `resultB`, the
absent name `"ghost-service"` resolves to the highest-risk service. -/
theorem lookup_falls_back_to_highest_risk_witness :
    ("ghost-service" ∉ resultB.services.map (fun m => m.service_name)) ∧
    resultB.services ≠ [] ∧
    (∃ m, find_service_metric resultB.services "ghost-service" = some m ∧
      m ∈ resultB.services ∧
      (∀ y ∈ resultB.services, y.risk_score ≤ m.risk_score) ∧
      (∃ l1 l2, resultB.services = l1 ++ m :: l2 ∧
        ∀ y ∈ l1, y.risk_score < m.risk_score) ∧
      cicd_hook resultB "ghost-service" = some
        { message_score := roundHalfEven m.risk_score
          message_decision := m.decision
          risk_score := m.risk_score
          decision := m.decision }) :=
  ⟨by with_unfolding_all decide, by with_unfolding_all decide,
    (lookup_falls_back_to_highest_risk resultB "ghost-service").2
      (by with_unfolding_all decide) (by with_unfolding_all decide)⟩

/-- C9 counterexample to the claim as stated: the substitution is NOT
surfaced to the caller.  On the run `resultB`, requesting the absent name
`"ghost-service"` succeeds, but the full hook response (message data, risk
score and decision — the response carries no service identifier or
substitution flag) is exactly the response of a direct request for the
highest-risk service `"b"`: the caller cannot observe that a substitution
took place. -/
theorem cicd_hook_substitution_not_surfaced :
    ("ghost-service" ∉ resultB.services.map (fun m => m.service_name)) ∧
    (cicd_hook resultB "ghost-service").isSome = true ∧
    cicd_hook resultB "ghost-service" = cicd_hook resultB "b" ∧
    ("b" ∈ resultB.services.map (fun m => m.service_name)) ∧
    ("ghost-service" : String) ≠ "b" := by
  refine ⟨?_, ?_, ?_, ?_, ?_⟩ <;> with_unfolding_all decide

/-! ### C1: which signal values feed the risk formula -/

/-- The service list of a successful run is the output of
`_generate_service_metrics`. -/
lemma run_simulation_services (st : Settings) (history : List HistoricalRecord)
    (d : Draws) (bc : DiGraph → String → ℚ) (now : ℤ) (res : SimulationResult)
    (h : run_simulation st history d bc now = some res) :
    res.services = generate_service_metrics (generate_dependency_graph st d)
      (collect_blocked_services history) d
      (bc (generate_dependency_graph st d)) := by
  simp only [run_simulation] at h
  rcases hserv : generate_service_metrics (generate_dependency_graph st d)
      (collect_blocked_services history) d
      (bc (generate_dependency_graph st d)) with _ | ⟨a, t⟩
  · rw [hserv] at h
    simp [summarise_services, pyMaxBy] at h
  · rw [hserv] at h
    simp only [summarise_services, pyMaxBy, Option.some.injEq] at h
    rw [← h]

/-- Every produced service record is `_build_service_metrics` applied to
some dependency score, some rollback rate, and the three rounded uniform
draws of its service. -/
lemma generate_service_metrics_mem (g : DiGraph) (blocked : List String)
    (d : Draws) (bc : String → ℚ) (m : ServiceMetrics)
    (hm : m ∈ generate_service_metrics g blocked d bc) :
    ∃ s dep rb, m = build_service_metrics s dep rb
      (round2 (d.changeFreq s)) (round2 (d.errorSpike s))
      (round2 (d.latency s)) := by
  unfold generate_service_metrics at hm
  rw [(List.perm_insertionSort _ _).mem_iff] at hm
  obtain ⟨s, _, hF⟩ := List.mem_map.mp hm
  exact ⟨s, _, _, hF.symm⟩

/-- C1 (amended): the stored risk score is the rounded, clamped weighted
formula applied to the dependency-impact and rollback values BEFORE their
final 2-decimal rounding, together with the already-rounded change
frequency, error-spike and latency signals; the stored decision classifies
the stored score.  (The claim as stated — the formula over all five stored,
rounded signals — fails; see the counterexample.) -/
theorem risk_formula_uses_preround_signals (st : Settings)
    (history : List HistoricalRecord) (d : Draws)
    (bc : DiGraph → String → ℚ) (now : ℤ) (res : SimulationResult)
    (h : run_simulation st history d bc now = some res) :
    ∀ m ∈ res.services, ∃ dep rb : ℚ,
      m.dependency_impact_score = round2 dep ∧
      m.rollback_rate = round2 rb ∧
      m.risk_score = round2 (pyClamp (0.4 * dep + 0.2 * rb +
        0.15 * m.change_frequency + 0.15 * m.error_spike_history +
        0.1 * m.latency_instability)) ∧
      m.decision = classify_risk m.risk_score := by
  intro m hm
  rw [run_simulation_services st history d bc now res h] at hm
  obtain ⟨s, dep, rb, rfl⟩ :=
    generate_service_metrics_mem _ _ d _ m hm
  refine ⟨dep, rb, rfl, rfl, ?_, rfl⟩
  simp only [build_service_metrics, round2_round2]

set_option maxRecDepth 8000 in
/-- Witness for C1's amended statement: the service `"a"` of the concrete
two-service run satisfies the pre-rounding formula. -/
theorem risk_formula_uses_preround_signals_witness :
    run_simulation settingsA [] drawsA bcZero 0 = some resultA ∧
    metricA ∈ resultA.services ∧
    (∃ dep rb : ℚ,
      metricA.dependency_impact_score = round2 dep ∧
      metricA.rollback_rate = round2 rb ∧
      metricA.risk_score = round2 (pyClamp (0.4 * dep + 0.2 * rb +
        0.15 * metricA.change_frequency + 0.15 * metricA.error_spike_history +
        0.1 * metricA.latency_instability)) ∧
      metricA.decision = classify_risk metricA.risk_score) :=
  ⟨by with_unfolding_all decide, by with_unfolding_all decide,
    risk_formula_uses_preround_signals settingsA [] drawsA bcZero 0 resultA
      (by with_unfolding_all decide) metricA (by with_unfolding_all decide)⟩

set_option maxRecDepth 8000 in
/-- C1 counterexample: in the concrete admissible run of `settingsA` with
draws `drawsA` (betweenness is genuinely zero on the generated two-node
graph), service `"a"` stores `risk_score = 16`, but the formula applied to
its own stored 2-decimal-rounded signals (40, 0.02, 0.01, 0, 0) gives
`16.01`: the code feeds the un-rounded dependency and rollback values into
the formula, so the claim as stated fails. -/
theorem risk_formula_stored_signals_counterexample :
    Draws.Admissible settingsA drawsA ∧
    BCValid (generate_dependency_graph settingsA drawsA)
      (bcZero (generate_dependency_graph settingsA drawsA)) ∧
    (run_simulation settingsA [] drawsA bcZero 0).map
      (fun r => r.services.map
        (fun m => (m.risk_score, specRiskFromStoredSignals m))) =
      some [(16, 16.01), (16, 16)] ∧
    ((16 : ℚ) ≠ 16.01) := by
  refine ⟨?_, ?_, ?_, ?_⟩ <;> with_unfolding_all decide

end Rollback
